import Mathlib

/-!
Verification of the masonry-snap-grid-layout engine.

The definitions below are a shallow embedding of the TypeScript sources:

* `src/MasonrySnapGridLayout.ts` — the main variant (class with
  `calculateLayout`, `applyLayout`, `generateItems`, `addItems`,
  `shuffleItems`, `handleResize`, `destroy`);
* the pooled variant (class with `updateLayout`, `positionItems`,
  `findShortestColumn`, `setContainerHeight`, `updateItems`, `destroy`,
  guarded by an `isDestroyed` flag).

JavaScript numbers are modelled by `ℚ` (exact rational arithmetic),
`Math.floor` by `Int.floor`, JS array index reads by `List.getD` (every
read performed by the code is in range), and JS `Array.prototype.slice`
with possibly negative arguments by explicit ECMAScript index clamping.
-/

/-- Position record stored by the main variant: `{ x, y, width, height }`. -/
structure Position where
  x : ℚ
  y : ℚ
  width : ℚ
  height : ℚ
deriving DecidableEq, Repr

/-- Column count of the planner:
`this.columns = Math.max(1, Math.floor((containerWidth + gutter) / (minColWidth + gutter)))`. -/
def columnCount (W g m : ℚ) : ℤ :=
  max 1 ⌊(W + g) / (m + g)⌋

/-- Column width of the planner:
`const colWidth = (containerWidth - (this.columns - 1) * gutter) / this.columns`. -/
def colWidth (W g : ℚ) (c : ℤ) : ℚ :=
  (W - ((c : ℚ) - 1) * g) / (c : ℚ)

/-- Loop body of the shortest-column scan of the main variant:
`if (this.columnHeights[c] < this.columnHeights[minCol]) minCol = c`. -/
def minColStep (hs : List ℚ) (minCol c : ℕ) : ℕ :=
  if hs.getD c 0 < hs.getD minCol 0 then c else minCol

/-- Shortest-column scan of the main variant:
`let minCol = 0; for (let c = 1; c < this.columns; c++) if (heights[c] < heights[minCol]) minCol = c`.
The loop body is folded over the index range `1, …, length-1`. -/
def findMinCol (hs : List ℚ) : ℕ :=
  (List.range' 1 (hs.length - 1)).foldl (minColStep hs) 0

/-- Loop body of the pooled variant's scan (`heights.forEach((height, index) => ...)`):
the accumulator is `(minIndex, minHeight)` and `Infinity` is modelled by `none`. -/
def fscStep (acc : ℕ × Option ℚ) (p : ℕ × ℚ) : ℕ × Option ℚ :=
  match acc.2 with
  | none => (p.1, some p.2)
  | some v => if p.2 < v then (p.1, some p.2) else acc

/-- Shortest-column scan of the pooled variant (`findShortestColumn`):
`minIndex = 0; minHeight = Infinity; heights.forEach((height, index) => if (height < minHeight) ...)`. -/
def findShortestColumn (hs : List ℚ) : ℕ :=
  (hs.enum.foldl fscStep ((0 : ℕ), (none : Option ℚ))).1

/-- Accumulator state of one placement pass: the running `columnHeights`
array and the `positions` array built so far. -/
structure PlaceState where
  heights : List ℚ
  positions : List Position
deriving DecidableEq, Repr

/-- One iteration of the placement loop of `calculateLayout` (main variant):
choose the shortest column, record `{x, y, width, height}` and bump the
chosen accumulator by `height + gutter`. -/
def placeItem (cw g : ℚ) (s : PlaceState) (h : ℚ) : PlaceState :=
  let minCol := findMinCol s.heights
  let x := (minCol : ℚ) * (cw + g)
  let y := s.heights.getD minCol 0
  { heights := s.heights.set minCol (y + (h + g)),
    positions := s.positions ++ [⟨x, y, cw, h⟩] }

/-- Initial placement state: `this.columnHeights = new Array(columns).fill(0)`,
`this.positions = []`. -/
def initPlace (c : ℕ) : PlaceState :=
  { heights := List.replicate c 0, positions := [] }

/-- Placement state after the first `i` items of the pass have been placed. -/
def placeUpTo (cw g : ℚ) (c : ℕ) (itemHeights : List ℚ) (i : ℕ) : PlaceState :=
  (itemHeights.take i).foldl (placeItem cw g) (initPlace c)

/-- JavaScript `Math.max(...xs)` on a non-empty argument list. -/
def mathMax (l : List ℚ) : ℚ :=
  l.foldl max (l.headD 0)

/-- Result of one `calculateLayout` pass of the main variant. -/
structure LayoutResult where
  columns : ℕ
  width : ℚ
  columnHeights : List ℚ
  positions : List Position
  containerHeight : ℚ
deriving DecidableEq, Repr

/-- The `calculateLayout` method of the main variant, as a function of the
measured item heights, the container width and the two options it reads.
The applied container height is `Math.max(...this.columnHeights)` with no
trailing-gutter subtraction. -/
def calculateLayout (itemHeights : List ℚ) (W g m : ℚ) : LayoutResult :=
  let c := (columnCount W g m).toNat
  let cw := colWidth W g (columnCount W g m)
  let s := itemHeights.foldl (placeItem cw g) (initPlace c)
  { columns := c, width := cw, columnHeights := s.heights,
    positions := s.positions, containerHeight := mathMax s.heights }

/-- The `setContainerHeight` method of the pooled variant:
`maxHeight = Math.max(0, ...heights); containerHeight = maxHeight > 0 ? maxHeight - gutter : 0`. -/
def setContainerHeight (heights : List ℚ) (g : ℚ) : ℚ :=
  let maxHeight := heights.foldl max 0
  if maxHeight > 0 then maxHeight - g else 0

/-- ECMAScript index normalization used by `Array.prototype.slice`:
a negative index counts from the end (clamped at 0), a nonnegative index
is clamped at the length. -/
def jsClampIndex (t : ℤ) (n : ℕ) : ℕ :=
  if t < 0 then ((n : ℤ) + t).toNat else min t.toNat n

/-- JavaScript `arr.slice(0, t)` (the kept prefix in `generateItems`). -/
def jsSliceTake (l : List α) (t : ℤ) : List α :=
  l.take (jsClampIndex t l.length)

/-- JavaScript `arr.slice(t)` (the removed suffix in `generateItems`). -/
def jsSliceDrop (l : List α) (t : ℤ) : List α :=
  l.drop (jsClampIndex t l.length)

/-- One swap `[a[i], a[j]] = [a[j], a[i]]` of the Fisher–Yates loop in
`shuffleItems`; JS destructuring assignment writes `a[j]` to slot `i` and
`a[i]` to slot `j`. -/
def listSwap (l : List α) (i j : ℕ) : List α :=
  match l[i]?, l[j]? with
  | some a, some b => (l.set i b).set j a
  | _, _ => l

/-- The Fisher–Yates loop `for (let i = length-1; i > 0; i--)` of
`shuffleItems`, parameterized by the list of drawn indices
`j = Math.floor(Math.random() * (i + 1))` (one per iteration). -/
def fyLoop : List α → ℕ → List ℕ → List α
  | l, _, [] => l
  | l, 0, _ :: _ => l
  | l, i + 1, j :: js => fyLoop (listSwap l (i + 1) j) i js

/-- Full Fisher–Yates shuffle of `shuffleItems`, starting at index
`items.length - 1`. -/
def fisherYates (l : List α) (js : List ℕ) : List α :=
  fyLoop l (l.length - 1) js

/-- Item handle of the main variant: a DOM element identified by a unique
id, carrying the randomly assigned pixel height of `createItem`. -/
structure MItem where
  uid : ℕ
  height : ℚ
deriving DecidableEq, Repr

/-- Options record of the main variant after defaults are merged. -/
structure MainOptions where
  gutter : ℚ
  minColWidth : ℚ
  animate : Bool
  transitionDuration : ℚ
  initialItems : ℕ
deriving DecidableEq, Repr

/-- Defaults merged in the constructor of the main variant. -/
def defaultOptions : MainOptions :=
  { gutter := 16, minColWidth := 250, animate := true,
    transitionDuration := 400, initialItems := 0 }

/-- Instance state of the main variant: its private fields plus the
observable container state it mutates (children, inline height style,
class, listeners) and the animation flag of the last `applyLayout` call. -/
structure MainState where
  opts : MainOptions
  containerWidth : ℚ
  items : List MItem
  positions : List Position
  columnHeights : List ℚ
  columns : ℕ
  lastPositions : List Position
  resizeRaf : Option ℕ
  containerChildren : List MItem
  containerStyleHeight : Option ℚ
  containerHasClass : Bool
  listenersAttached : Bool
  lastAnimate : Bool
  nextUid : ℕ
deriving DecidableEq, Repr

/-- The `createItem(index)` helper of the main variant: a fresh element
whose height is `120 + Math.floor(Math.random() * 100)`; the ambient
randomness source is modelled as a stream indexed by the element's id. -/
def createItem (rng : ℕ → ℚ) (uid : ℕ) : MItem :=
  { uid := uid, height := (120 : ℚ) + ((⌊rng uid * 100⌋ : ℤ) : ℚ) }

/-- The `generateItems(count)` method of the main variant. When
`count < items.length` it removes `items.slice(count)` from the container
and keeps `items.slice(0, count)` (JS slice semantics, including negative
indices); otherwise it appends fresh elements until the registry has
`count` entries. -/
def generateItems (s : MainState) (count : ℤ) (rng : ℕ → ℚ) : MainState :=
  if count < (s.items.length : ℤ) then
    let removed := jsSliceDrop s.items count
    { s with items := jsSliceTake s.items count,
             containerChildren :=
               s.containerChildren.filter (fun it => decide (it ∉ removed)) }
  else
    let n := (count - (s.items.length : ℤ)).toNat
    let newItems := (List.range n).map (fun idx => createItem rng (s.nextUid + idx))
    { s with items := s.items ++ newItems,
             containerChildren := s.containerChildren ++ newItems,
             nextUid := s.nextUid + n }

/-- The `calculateLayout()` method acting on the instance state: recompute
columns, save `lastPositions`, rebuild `columnHeights` and `positions`,
and set the container height style to `Math.max(...columnHeights)`. -/
def calculateLayoutStep (s : MainState) : MainState :=
  let r := calculateLayout (s.items.map (fun it => it.height)) s.containerWidth
    s.opts.gutter s.opts.minColWidth
  { s with columns := r.columns,
           lastPositions := s.positions,
           columnHeights := r.columnHeights,
           positions := r.positions,
           containerStyleHeight := some r.containerHeight }

/-- The `applyLayout(animate)` method, which writes transforms to the item
elements; the model records the animation flag that was used. -/
def applyLayoutStep (s : MainState) (animate : Bool) : MainState :=
  { s with lastAnimate := animate }

/-- The public `addItems(count)` method of the main variant:
`generateItems(items.length + count)`, then an animated relayout. -/
def addItems (s : MainState) (count : ℤ) (rng : ℕ → ℚ) : MainState :=
  applyLayoutStep (calculateLayoutStep (generateItems s ((s.items.length : ℤ) + count) rng)) true

/-- The public `shuffleItems()` method of the main variant: Fisher–Yates
shuffle of the registry, re-append every item to the container in the new
order, then an animated relayout. -/
def shuffleItems (s : MainState) (js : List ℕ) : MainState :=
  let shuffled := fisherYates s.items js
  let s1 := { s with
    items := shuffled,
    containerChildren :=
      s.containerChildren.filter (fun it => decide (it ∉ shuffled)) ++ shuffled }
  applyLayoutStep (calculateLayoutStep s1) true

/-- The public `destroy()` method of the main variant: disconnect the
observer and window listener, cancel a pending frame, clear the container
(`innerHTML = ''`, remove the style attribute and the container class) and
reset all internal fields. The main variant keeps no destroyed flag. -/
def destroy (s : MainState) : MainState :=
  { s with listenersAttached := false,
           resizeRaf := none,
           containerChildren := [],
           containerStyleHeight := none,
           containerHasClass := false,
           items := [],
           positions := [],
           columnHeights := [],
           columns := 0,
           lastPositions := [] }

/-- Constructor of the main variant. It merges options, then immediately
dereferences the container (`this.container.classList.add(...)`): with an
absent container that property access throws a TypeError before any
instance is produced. Otherwise `init()` generates the initial items and
runs one unanimated layout pass. -/
def construct (container : Option Unit) (opts : MainOptions) (W : ℚ)
    (rng : ℕ → ℚ) : Except String MainState :=
  match container with
  | none => Except.error "TypeError: cannot read properties of null"
  | some _ =>
    let s0 : MainState :=
      { opts := opts, containerWidth := W, items := [], positions := [],
        columnHeights := [], columns := 0, lastPositions := [],
        resizeRaf := none, containerChildren := [], containerStyleHeight := none,
        containerHasClass := true, listenersAttached := true,
        lastAnimate := false, nextUid := 0 }
    Except.ok (applyLayoutStep (calculateLayoutStep
      (generateItems s0 (opts.initialItems : ℤ) rng)) false)

/-- Instance state of the pooled variant, which guards every public
operation with its `isDestroyed` flag. Item data is opaque. -/
structure P2State where
  isDestroyed : Bool
  items : List ℕ
  containerChildren : List ℕ
  containerHasClass : Bool
  rafId : Option ℕ
deriving DecidableEq, Repr

/-- Constructor of the pooled variant:
`if (!container) throw new Error('Container element is required')`. -/
def p2Construct (container : Option Unit) (items : List ℕ) : Except String P2State :=
  match container with
  | none => Except.error "Container element is required"
  | some _ =>
    Except.ok { isDestroyed := false, items := items, containerChildren := items,
                containerHasClass := true, rafId := none }

/-- The `updateItems(newItems)` method of the pooled variant:
`if (this.isDestroyed) return;` then replace items and re-render. -/
def p2UpdateItems (s : P2State) (newItems : List ℕ) : P2State :=
  if s.isDestroyed then s
  else { s with items := newItems, containerChildren := newItems }

/-- The `destroy()` method of the pooled variant:
`if (this.isDestroyed) return; this.isDestroyed = true; ...` then full
teardown of observer, frame, container and references. -/
def p2Destroy (s : P2State) : P2State :=
  if s.isDestroyed then s
  else { s with isDestroyed := true, items := [], containerChildren := [],
                containerHasClass := false, rafId := none }

/-- The `calculateLayout` pass seen as a function of the ambient
environment's randomness source: the body of the source method never reads
`Math.random`, so the embedding ignores the stream parameter. -/
def calculateLayoutInEnv (random : ℕ → ℚ) (itemHeights : List ℚ) (W g m : ℚ) :
    LayoutResult :=
  calculateLayout itemHeights W g m

/-! ### Resize coordinator model

State of the browser frame scheduler as used by `handleResize` and
`destroy` of the main variant: `resizeRaf` is the stored request id,
`nextId` the next id `requestAnimationFrame` will hand out (browsers start
at 1, and `if (this.resizeRaf)` tests JS truthiness, i.e. non-null and
non-zero), `scheduled`, `cancelled` and `fired` record the ids ever
requested, cancelled and whose callback ran. `observing` models the
ResizeObserver/window-listener subscription that routes resize
notifications to `handleResize`. The source callback never resets
`resizeRaf` after it runs, and that is mirrored here. -/

/-- Scheduler state. -/
structure RState where
  resizeRaf : Option ℕ
  nextId : ℕ
  scheduled : List ℕ
  cancelled : List ℕ
  fired : List ℕ
  observing : Bool
  destroyed : Bool
deriving DecidableEq, Repr

/-- The guarded cancel `if (this.resizeRaf) cancelAnimationFrame(this.resizeRaf)`. -/
def cancelRaf (s : RState) : RState :=
  match s.resizeRaf with
  | none => s
  | some id => if id = 0 then s else { s with cancelled := id :: s.cancelled }

/-- The `handleResize()` method of the main variant: cancel the pending
request, then `this.resizeRaf = requestAnimationFrame(...)`. -/
def handleResize (s : RState) : RState :=
  let s1 := cancelRaf s
  { s1 with resizeRaf := some s1.nextId,
            scheduled := s1.nextId :: s1.scheduled,
            nextId := s1.nextId + 1 }

/-- The browser fires the pending animation-frame callback, provided it
was neither cancelled nor already run; the callback performs the relayout
and leaves `resizeRaf` unchanged (the source never clears it). -/
def frameFire (s : RState) : RState :=
  match s.resizeRaf with
  | none => s
  | some id =>
    if id ∈ s.cancelled ∨ id ∈ s.fired then s
    else { s with fired := id :: s.fired }

/-- The scheduler-facing part of `destroy()`: disconnect the observer and
window listener, then cancel and null the pending request. -/
def destroySched (s : RState) : RState :=
  let s1 := { s with observing := false }
  let s2 := cancelRaf s1
  { s2 with resizeRaf := none, destroyed := true }

/-- External events driving the scheduler. -/
inductive REvent where
  | resize
  | frame
  | destroy
deriving DecidableEq, Repr

/-- Event dispatch: resize notifications reach `handleResize` only while
the subscriptions are attached. -/
def stepR (s : RState) : REvent → RState
  | REvent.resize => if s.observing then handleResize s else s
  | REvent.frame => frameFire s
  | REvent.destroy => destroySched s

/-- Run the scheduler over a list of events. -/
def runR (s : RState) (evs : List REvent) : RState :=
  evs.foldl stepR s

/-- Freshly constructed scheduler: nothing pending, ids start at 1,
subscriptions attached. -/
def initR : RState :=
  { resizeRaf := none, nextId := 1, scheduled := [], cancelled := [],
    fired := [], observing := true, destroyed := false }

/-- Fixed sample randomness stream (used only to instantiate theorems). -/
def rng0 : ℕ → ℚ := fun _ => 0

/-- Sample constructed instance of the main variant with three items. -/
def sampleState3 : MainState :=
  { opts := defaultOptions, containerWidth := 516,
    items := [⟨0, 120⟩, ⟨1, 130⟩, ⟨2, 140⟩],
    positions := [], columnHeights := [], columns := 0, lastPositions := [],
    resizeRaf := none,
    containerChildren := [⟨0, 120⟩, ⟨1, 130⟩, ⟨2, 140⟩],
    containerStyleHeight := none, containerHasClass := true,
    listenersAttached := true, lastAnimate := false, nextUid := 3 }

/-! ### Properties of the two shortest-column scans

Both scans return the first index attaining the minimum accumulated height:
the returned index is in range, its height is a lower bound for every
column, and every column strictly before it is strictly taller. -/

lemma minScan_invariant (hs : List ℚ) (k : ℕ) :
    (List.range' 1 k).foldl (minColStep hs) 0 ≤ k ∧
    (∀ j, j ≤ k → hs.getD ((List.range' 1 k).foldl (minColStep hs) 0) 0 ≤ hs.getD j 0) ∧
    (∀ j, j < (List.range' 1 k).foldl (minColStep hs) 0 →
      hs.getD ((List.range' 1 k).foldl (minColStep hs) 0) 0 < hs.getD j 0) := by
  induction k with
  | zero =>
    simp only [List.range', List.foldl_nil]
    refine ⟨le_refl 0, ?_, ?_⟩ <;> intro j hj
    · have : j = 0 := Nat.le_zero.mp hj
      simp [this]
    · omega
  | succ k ih =>
    obtain ⟨h1, h2, h3⟩ := ih
    rw [List.range'_concat, List.foldl_append, List.foldl_cons, List.foldl_nil]
    have hidx : 1 + 1 * k = k + 1 := by omega
    rw [hidx]
    set r := (List.range' 1 k).foldl (minColStep hs) 0 with hr
    rw [minColStep]
    by_cases hlt : hs.getD (k + 1) 0 < hs.getD r 0
    · rw [if_pos hlt]
      refine ⟨le_refl _, ?_, ?_⟩
      · intro j hj
        rcases Nat.lt_or_ge j (k + 1) with hj' | hj'
        · exact le_of_lt (lt_of_lt_of_le hlt (h2 j (by omega)))
        · have : j = k + 1 := by omega
          simp [this]
      · intro j hj
        exact lt_of_lt_of_le hlt (h2 j (by omega))
    · rw [if_neg hlt]
      refine ⟨by omega, ?_, h3⟩
      intro j hj
      rcases Nat.lt_or_ge j (k + 1) with hj' | hj'
      · exact h2 j (by omega)
      · have : j = k + 1 := by omega
        rw [this]
        exact le_of_not_lt hlt

lemma findMinCol_lt_length (hs : List ℚ) (h : hs ≠ []) : findMinCol hs < hs.length := by
  have := (minScan_invariant hs (hs.length - 1)).1
  have hlen : 0 < hs.length := List.length_pos.mpr h
  rw [findMinCol]
  omega

lemma findMinCol_min (hs : List ℚ) (j : ℕ) (hj : j < hs.length) :
    hs.getD (findMinCol hs) 0 ≤ hs.getD j 0 :=
  (minScan_invariant hs (hs.length - 1)).2.1 j (by omega)

lemma findMinCol_first (hs : List ℚ) (j : ℕ) (hj : j < findMinCol hs) :
    hs.getD (findMinCol hs) 0 < hs.getD j 0 :=
  (minScan_invariant hs (hs.length - 1)).2.2 j hj

lemma fsc_aux (hs : List ℚ) (t : List ℚ) :
    ∀ (n b : ℕ) (v : ℚ), hs.drop n = t → b < n → b < hs.length → v = hs.getD b 0 →
    (∀ j, j < n → v ≤ hs.getD j 0) → (∀ j, j < b → v < hs.getD j 0) →
    ((List.enumFrom n t).foldl fscStep (b, some v)).1 < hs.length ∧
    (∀ j, j < hs.length →
      hs.getD ((List.enumFrom n t).foldl fscStep (b, some v)).1 0 ≤ hs.getD j 0) ∧
    (∀ j, j < ((List.enumFrom n t).foldl fscStep (b, some v)).1 →
      hs.getD ((List.enumFrom n t).foldl fscStep (b, some v)).1 0 < hs.getD j 0) := by
  induction t with
  | nil =>
    intro n b v hdrop hbn hbl hv hmin hstrict
    have hlen : hs.length ≤ n := List.drop_eq_nil_iff.mp hdrop
    simp only [List.enumFrom, List.foldl_nil]
    exact ⟨hbl, fun j hj => hv ▸ hmin j (by omega), fun j hj => hv ▸ hstrict j hj⟩
  | cons x t' ih =>
    intro n b v hdrop hbn hbl hv hmin hstrict
    have hn : n < hs.length := by
      by_contra hge
      rw [List.drop_eq_nil_iff.mpr (by omega)] at hdrop
      exact List.cons_ne_nil x t' hdrop.symm
    rw [List.drop_eq_getElem_cons hn] at hdrop
    have hx : x = hs.getD n 0 := by
      rw [List.getD_eq_getElem hs 0 hn]
      exact (List.cons.injEq _ _ _ _ ▸ hdrop).1.symm
    have ht' : hs.drop (n + 1) = t' := (List.cons.injEq _ _ _ _ ▸ hdrop).2
    rw [List.enumFrom_cons, List.foldl_cons]
    show (List.foldl fscStep (fscStep (b, some v) (n, x)) _).1 < hs.length ∧ _
    rw [fscStep]
    by_cases hlt : x < v
    · simp only [if_pos hlt]
      exact ih (n + 1) n x ht' (by omega) hn hx
        (fun j hj => by
          rcases Nat.lt_or_ge j n with hj' | hj'
          · exact le_of_lt (lt_of_lt_of_le hlt (hv ▸ hmin j hj'))
          · have : j = n := by omega
            rw [this, hx])
        (fun j hj => lt_of_lt_of_le hlt (hv ▸ hmin j hj))
    · simp only [if_neg hlt]
      exact ih (n + 1) b v ht' (by omega) hbl hv
        (fun j hj => by
          rcases Nat.lt_or_ge j n with hj' | hj'
          · exact hmin j hj'
          · have : j = n := by omega
            rw [this, ← hx]
            exact le_of_not_lt hlt)
        hstrict

lemma findShortestColumn_spec (hs : List ℚ) (h : hs ≠ []) :
    findShortestColumn hs < hs.length ∧
    (∀ j, j < hs.length → hs.getD (findShortestColumn hs) 0 ≤ hs.getD j 0) ∧
    (∀ j, j < findShortestColumn hs →
      hs.getD (findShortestColumn hs) 0 < hs.getD j 0) := by
  match hs, h with
  | x :: t, _ =>
    rw [findShortestColumn, List.enum_cons, List.foldl_cons]
    have hstep : fscStep ((0 : ℕ), (none : Option ℚ)) (0, x) = (0, some x) := rfl
    rw [hstep]
    exact fsc_aux (x :: t) t 1 0 x (by simp) (by omega) (by simp) (by simp)
      (fun j hj => by
        have : j = 0 := by omega
        simp [this])
      (fun j hj => by omega)

lemma firstMin_unique (hs : List ℚ) (k1 k2 : ℕ)
    (hl1 : k1 < hs.length)
    (hmin1 : ∀ j, j < hs.length → hs.getD k1 0 ≤ hs.getD j 0)
    (hst1 : ∀ j, j < k1 → hs.getD k1 0 < hs.getD j 0)
    (hl2 : k2 < hs.length)
    (hmin2 : ∀ j, j < hs.length → hs.getD k2 0 ≤ hs.getD j 0)
    (hst2 : ∀ j, j < k2 → hs.getD k2 0 < hs.getD j 0) : k1 = k2 := by
  rcases Nat.lt_trichotomy k1 k2 with hlt | heq | hgt
  · exact absurd (hmin1 k2 hl2) (not_le_of_lt (hst2 k1 hlt))
  · exact heq
  · exact absurd (hmin2 k1 hl1) (not_le_of_lt (hst1 k2 hgt))

lemma findShortestColumn_eq_findMinCol (hs : List ℚ) (h : hs ≠ []) :
    findShortestColumn hs = findMinCol hs := by
  obtain ⟨a1, a2, a3⟩ := findShortestColumn_spec hs h
  exact firstMin_unique hs (findShortestColumn hs) (findMinCol hs) a1 a2 a3
    (findMinCol_lt_length hs h) (findMinCol_min hs) (findMinCol_first hs)

lemma foldl_placeItem_heights_length (cw g : ℚ) (l : List ℚ) (s : PlaceState) :
    (l.foldl (placeItem cw g) s).heights.length = s.heights.length := by
  induction l generalizing s with
  | nil => rfl
  | cons h t ih =>
    rw [List.foldl_cons, ih]
    simp [placeItem]

lemma placeUpTo_heights_length (cw g : ℚ) (c : ℕ) (itemHeights : List ℚ) (i : ℕ) :
    (placeUpTo cw g c itemHeights i).heights.length = c := by
  rw [placeUpTo, foldl_placeItem_heights_length]
  simp [initPlace]

lemma columnCount_ge_one (W g m : ℚ) : 1 ≤ columnCount W g m := le_max_left _ _

lemma columnCount_toNat_pos (W g m : ℚ) : 0 < (columnCount W g m).toNat := by
  have := columnCount_ge_one W g m
  omega

lemma placeUpTo_succ (cw g : ℚ) (c : ℕ) (itemHeights : List ℚ) (i : ℕ)
    (hi : i < itemHeights.length) :
    placeUpTo cw g c itemHeights (i + 1) =
      placeItem cw g (placeUpTo cw g c itemHeights i) (itemHeights.getD i 0) := by
  rw [placeUpTo, placeUpTo, List.take_succ]
  have hsome : itemHeights[i]? = some (itemHeights.getD i 0) := by
    rw [List.getD_eq_getElem _ _ hi]
    exact List.getElem?_eq_getElem hi
  rw [hsome, List.foldl_append]
  rfl

/-- C1: for every sequence of item heights and the planner-derived column
count, each item is assigned, in registry order, to the column whose
accumulated height is minimal at that step, ties resolved to the lowest
column index (both the main variant's scan and the pooled variant's
`findShortestColumn` make that choice); the recorded position is
`x = columnIndex * (colWidth + gutter)`, `y = accumulator[columnIndex]`
before placement, and the chosen accumulator is then incremented by the
item's height plus the gutter. -/
theorem claim1_shortest_column_placement
    (itemHeights : List ℚ) (W g m : ℚ) (c : ℕ) (cw : ℚ)
    (hc : c = (columnCount W g m).toNat) (hcw : cw = colWidth W g (columnCount W g m))
    (i : ℕ) (hi : i < itemHeights.length) :
    let s := placeUpTo cw g c itemHeights i
    let k := findMinCol s.heights
    let y := s.heights.getD k 0
    let h := itemHeights.getD i 0
    (k < c ∧ (∀ j, j < c → y ≤ s.heights.getD j 0) ∧
      (∀ j, j < k → y < s.heights.getD j 0)) ∧
    findShortestColumn s.heights = k ∧
    placeUpTo cw g c itemHeights (i + 1) =
      { heights := s.heights.set k (y + (h + g)),
        positions := s.positions ++ [⟨(k : ℚ) * (cw + g), y, cw, h⟩] } := by
  intro s k y h
  have hlen : s.heights.length = c := placeUpTo_heights_length cw g c itemHeights i
  have hc0 : 0 < c := by
    rw [hc]
    exact columnCount_toNat_pos W g m
  have hne : s.heights ≠ [] := by
    apply List.ne_nil_of_length_pos
    omega
  refine ⟨⟨?_, ?_, ?_⟩, ?_, ?_⟩
  · have := findMinCol_lt_length s.heights hne
    omega
  · intro j hj
    exact findMinCol_min s.heights j (by omega)
  · intro j hj
    exact findMinCol_first s.heights j hj
  · exact findShortestColumn_eq_findMinCol s.heights hne
  · rw [placeUpTo_succ cw g c itemHeights i hi]
    rfl

/-- Witness for C1: the spec's own scenario of five items placed into two
columns with gutter 10 (container width 510, minimum column width 250),
checked at the fourth placement step. -/
theorem claim1_witness :
    (3 < ([100, 150, 80, 200, 120] : List ℚ).length) ∧
    (let s := placeUpTo (colWidth 510 10 (columnCount 510 10 250)) 10
       (columnCount 510 10 250).toNat [100, 150, 80, 200, 120] 3
     let k := findMinCol s.heights
     let y := s.heights.getD k 0
     let h := ([100, 150, 80, 200, 120] : List ℚ).getD 3 0
     ((k < (columnCount 510 10 250).toNat ∧
       (∀ j, j < (columnCount 510 10 250).toNat → y ≤ s.heights.getD j 0) ∧
       (∀ j, j < k → y < s.heights.getD j 0)) ∧
      findShortestColumn s.heights = k ∧
      placeUpTo (colWidth 510 10 (columnCount 510 10 250)) 10
          (columnCount 510 10 250).toNat [100, 150, 80, 200, 120] (3 + 1) =
        { heights := s.heights.set k (y + (h + 10)),
          positions := s.positions ++
            [⟨(k : ℚ) * (colWidth 510 10 (columnCount 510 10 250) + 10), y,
              colWidth 510 10 (columnCount 510 10 250), h⟩] })) :=
  ⟨by norm_num,
   claim1_shortest_column_placement [100, 150, 80, 200, 120] 510 10 250
     (columnCount 510 10 250).toNat (colWidth 510 10 (columnCount 510 10 250))
     rfl rfl 3 (by norm_num)⟩

/-- C2: for container width `W ≥ 0`, gutter `g ≥ 0` and minimum column
width `m > 0`, the planner yields `c = max(1, floor((W+g)/(m+g))) ≥ 1`
(never zero columns, even at zero width) and the derived column width
satisfies `colW * c + g * (c-1) = W` exactly over the rationals. -/
theorem claim2_column_planner (W g m : ℚ) (hW : 0 ≤ W) (hg : 0 ≤ g) (hm : 0 < m) :
    columnCount W g m = max 1 ⌊(W + g) / (m + g)⌋ ∧
    1 ≤ columnCount W g m ∧
    colWidth W g (columnCount W g m) * ((columnCount W g m : ℤ) : ℚ) +
      g * (((columnCount W g m : ℤ) : ℚ) - 1) = W := by
  refine ⟨rfl, columnCount_ge_one W g m, ?_⟩
  have h1 : (1 : ℚ) ≤ ((columnCount W g m : ℤ) : ℚ) := by
    exact_mod_cast columnCount_ge_one W g m
  have hc : ((columnCount W g m : ℤ) : ℚ) ≠ 0 := by linarith
  rw [colWidth]
  field_simp
  ring

/-- Witness for C2: the spec's scenario `W = 1000`, `g = 16`, `m = 250`
gives three columns and the widths exactly tile the container. -/
theorem claim2_witness :
    ((0 : ℚ) ≤ 1000 ∧ (0 : ℚ) ≤ 16 ∧ (0 : ℚ) < 250) ∧
    (columnCount 1000 16 250 = max 1 ⌊((1000 : ℚ) + 16) / (250 + 16)⌋ ∧
     1 ≤ columnCount 1000 16 250 ∧
     colWidth 1000 16 (columnCount 1000 16 250) * ((columnCount 1000 16 250 : ℤ) : ℚ) +
       16 * (((columnCount 1000 16 250 : ℤ) : ℚ) - 1) = 1000) :=
  ⟨⟨by norm_num, by norm_num, by norm_num⟩,
   claim2_column_planner 1000 16 250 (by norm_num) (by norm_num) (by norm_num)⟩

lemma calcLayout516 :
    calculateLayout [100] 516 16 250 = ⟨2, 250, [116, 0], [⟨0, 0, 250, 100⟩], 116⟩ := by
  have hc : columnCount 516 16 250 = 2 := by norm_num [columnCount]
  have hc2 : (columnCount 516 16 250).toNat = 2 := by rw [hc]; rfl
  simp only [calculateLayout]
  rw [hc2, hc]
  norm_num [colWidth, placeItem, initPlace, findMinCol, minColStep, mathMax,
    List.range', List.replicate_succ]

lemma calcLayout250 :
    calculateLayout [100] 250 16 250 = ⟨1, 250, [116], [⟨0, 0, 250, 100⟩], 116⟩ := by
  have hc : columnCount 250 16 250 = 1 := by norm_num [columnCount]
  have hc2 : (columnCount 250 16 250).toNat = 1 := by rw [hc]; rfl
  simp only [calculateLayout]
  rw [hc2, hc]
  norm_num [colWidth, placeItem, initPlace, findMinCol, minColStep, mathMax,
    List.range', List.replicate_succ]


/-! ### Fisher–Yates shuffle preserves the multiset of items -/

lemma get_cons_set_perm (xs : List α) (j : ℕ) (x : α) (hj : j < xs.length) :
    List.Perm (xs.get ⟨j, hj⟩ :: xs.set j x) (x :: xs) := by
  induction xs generalizing j with
  | nil => simp at hj
  | cons y ys ih =>
    cases j with
    | zero =>
      simp only [List.get_eq_getElem, List.getElem_cons_zero, List.set_cons_zero]
      exact List.Perm.swap x y ys
    | succ j' =>
      have hj' : j' < ys.length := by simpa using hj
      simp only [List.get_eq_getElem, List.getElem_cons_succ, List.set_cons_succ]
      exact List.Perm.trans (List.Perm.swap y (ys.get ⟨j', hj'⟩) (ys.set j' x))
        (List.Perm.trans (List.Perm.cons y (ih j' hj')) (List.Perm.swap x y ys))

lemma set_set_get_perm (l : List α) (i j : ℕ) (hi : i < l.length) (hj : j < l.length) :
    List.Perm ((l.set i (l.get ⟨j, hj⟩)).set j (l.get ⟨i, hi⟩)) l := by
  induction l generalizing i j with
  | nil => simp at hi
  | cons x xs ih =>
    cases i with
    | zero =>
      cases j with
      | zero => simp
      | succ j' =>
        have hj' : j' < xs.length := by simpa using hj
        simp only [List.get_eq_getElem, List.getElem_cons_zero, List.getElem_cons_succ,
          List.set_cons_zero, List.set_cons_succ]
        exact get_cons_set_perm xs j' x hj'
    | succ i' =>
      have hi' : i' < xs.length := by simpa using hi
      cases j with
      | zero =>
        simp only [List.get_eq_getElem, List.getElem_cons_zero, List.getElem_cons_succ,
          List.set_cons_zero, List.set_cons_succ]
        exact get_cons_set_perm xs i' x hi'
      | succ j' =>
        have hj' : j' < xs.length := by simpa using hj
        simp only [List.get_eq_getElem, List.getElem_cons_succ, List.set_cons_succ]
        exact List.Perm.cons x (ih i' j' hi' hj')

lemma listSwap_perm (l : List α) (i j : ℕ) : List.Perm (listSwap l i j) l := by
  rw [listSwap]
  rcases hgi : l[i]? with _ | a
  · simp
  · rcases hgj : l[j]? with _ | b
    · simp
    · obtain ⟨hi, hai⟩ := List.getElem?_eq_some.mp hgi
      obtain ⟨hj, hbj⟩ := List.getElem?_eq_some.mp hgj
      simp only []
      have ha : a = l.get ⟨i, hi⟩ := hai.symm
      have hb : b = l.get ⟨j, hj⟩ := hbj.symm
      rw [ha, hb]
      exact set_set_get_perm l i j hi hj

lemma fyLoop_perm (js : List ℕ) : ∀ (l : List α) (i : ℕ), List.Perm (fyLoop l i js) l := by
  induction js with
  | nil => intro l i; rw [fyLoop]
  | cons j js ih =>
    intro l i
    cases i with
    | zero => rw [fyLoop]
    | succ i' =>
      rw [fyLoop]
      exact List.Perm.trans (ih (listSwap l (i' + 1) j) i') (listSwap_perm l (i' + 1) j)

lemma fisherYates_perm (l : List α) (js : List ℕ) : List.Perm (fisherYates l js) l :=
  fyLoop_perm js l (l.length - 1)

/-- C8: for every item list and every sequence of drawn swap indices,
`shuffleItems()` leaves the multiset of registry items unchanged (no item
added, removed or duplicated — only the order changes), and it triggers an
animated relayout (`applyLayout(true)`). The drawn indices
`Math.floor(Math.random() * (i + 1))` are universally quantified, so the
conclusion holds for every realization of the call-time randomness; under
uniform independent draws this loop is the standard Fisher–Yates shuffle,
whose output distribution is the uniform distribution on permutations. -/
theorem claim8_shuffle_preserves_items (s : MainState) (js : List ℕ) :
    Multiset.ofList ((shuffleItems s js).items) = Multiset.ofList s.items ∧
    (shuffleItems s js).lastAnimate = true ∧
    (shuffleItems s js).positions =
      (calculateLayout ((fisherYates s.items js).map (fun it => it.height))
        s.containerWidth s.opts.gutter s.opts.minColWidth).positions := by
  refine ⟨?_, rfl, rfl⟩
  have hitems : (shuffleItems s js).items = fisherYates s.items js := rfl
  rw [hitems]
  exact Quot.sound (fisherYates_perm s.items js)

/-! ### Greedy balance of the column accumulators -/

lemma placeItem_balance (cw g D : ℚ) (s : PlaceState) (h : ℚ)
    (hg : 0 ≤ g) (hh : 0 ≤ h) (hhD : h + g ≤ D)
    (hD : ∀ a ∈ s.heights, ∀ b ∈ s.heights, a - b ≤ D) :
    ∀ a ∈ (placeItem cw g s h).heights, ∀ b ∈ (placeItem cw g s h).heights, a - b ≤ D := by
  intro a ha b hb
  simp only [placeItem] at ha hb
  have hne : s.heights ≠ [] := by
    intro hnil
    rw [hnil] at ha
    simp at ha
  have hkl : findMinCol s.heights < s.heights.length := findMinCol_lt_length s.heights hne
  have hymem : s.heights.getD (findMinCol s.heights) 0 ∈ s.heights := by
    rw [List.getD_eq_getElem s.heights 0 hkl]
    exact List.getElem_mem hkl
  have hylow : ∀ x ∈ s.heights, s.heights.getD (findMinCol s.heights) 0 ≤ x := by
    intro x hx
    obtain ⟨ix, hix, rfl⟩ := List.mem_iff_getElem.mp hx
    rw [← List.getD_eq_getElem s.heights 0 hix]
    exact findMinCol_min s.heights ix hix
  have hblow : s.heights.getD (findMinCol s.heights) 0 ≤ b := by
    rcases List.mem_or_eq_of_mem_set hb with hb' | hb'
    · exact hylow b hb'
    · rw [hb']
      linarith
  rcases List.mem_or_eq_of_mem_set ha with ha' | ha'
  · have := hD a ha' (s.heights.getD (findMinCol s.heights) 0) hymem
    linarith
  · rw [ha']
    linarith

lemma foldl_placeItem_balance (cw g D : ℚ) (l : List ℚ) :
    ∀ s : PlaceState, 0 ≤ g → (∀ h ∈ l, 0 ≤ h ∧ h + g ≤ D) →
    (∀ a ∈ s.heights, ∀ b ∈ s.heights, a - b ≤ D) →
    ∀ a ∈ (l.foldl (placeItem cw g) s).heights,
    ∀ b ∈ (l.foldl (placeItem cw g) s).heights, a - b ≤ D := by
  induction l with
  | nil =>
    intro s _ _ hD
    simpa using hD
  | cons h t ih =>
    intro s hg hl hD
    rw [List.foldl_cons]
    exact ih (placeItem cw g s h) hg
      (fun x hx => hl x (List.mem_cons_of_mem h hx))
      (placeItem_balance cw g D s h hg (hl h (List.mem_cons_self h t)).1
        (hl h (List.mem_cons_self h t)).2 hD)

/-- C6, counterexample to the claim as stated: one item of height 100
placed into the two columns derived for container width 516 with gutter 16
leaves accumulators 116 and 0, whose difference 116 exceeds the maximum
single item height `mathMax [100] = 100` (the accumulator retains the
trailing gutter of the placed item). -/
theorem claim6_counterexample :
    ¬ (∀ a ∈ (calculateLayout [100] 516 16 250).columnHeights,
        ∀ b ∈ (calculateLayout [100] 516 16 250).columnHeights,
          a - b ≤ mathMax [100]) := by
  intro hcl
  rw [calcLayout516] at hcl
  have h1 : (116 : ℚ) ∈ ([116, 0] : List ℚ) := by simp
  have h2 : (0 : ℚ) ∈ ([116, 0] : List ℚ) := by simp
  have := hcl 116 h1 0 h2
  rw [show mathMax [100] = 100 from rfl] at this
  norm_num at this

/-- C6, amended: with nonnegative gutter and item heights, after the full
placement pass the difference between any two column accumulators — in
particular between the tallest and the shortest — is bounded by the
maximum single item height plus one gutter (each placement increments the
chosen accumulator by `height + gutter`). -/
theorem claim6_amended_greedy_balance (itemHeights : List ℚ) (W g m B : ℚ)
    (hg : 0 ≤ g) (hB : 0 ≤ B) (hl : ∀ h ∈ itemHeights, 0 ≤ h ∧ h ≤ B) :
    ∀ a ∈ (calculateLayout itemHeights W g m).columnHeights,
    ∀ b ∈ (calculateLayout itemHeights W g m).columnHeights, a - b ≤ B + g := by
  have hch : (calculateLayout itemHeights W g m).columnHeights =
      (itemHeights.foldl (placeItem (colWidth W g (columnCount W g m)) g)
        (initPlace (columnCount W g m).toNat)).heights := rfl
  rw [hch]
  apply foldl_placeItem_balance _ _ _ _ _ hg
  · intro h hh
    exact ⟨(hl h hh).1, by linarith [(hl h hh).2]⟩
  · intro a ha b hb
    simp only [initPlace] at ha hb
    rw [List.eq_of_mem_replicate ha, List.eq_of_mem_replicate hb]
    linarith

/-- Witness for the amended C6 at the counterexample input: the difference
is indeed bounded by `100 + 16`. -/
theorem claim6_witness :
    ((0 : ℚ) ≤ 16 ∧ (0 : ℚ) ≤ 100 ∧ ∀ h ∈ ([100] : List ℚ), 0 ≤ h ∧ h ≤ 100) ∧
    (∀ a ∈ (calculateLayout [100] 516 16 250).columnHeights,
     ∀ b ∈ (calculateLayout [100] 516 16 250).columnHeights, a - b ≤ 100 + 16) :=
  ⟨⟨by norm_num, by norm_num, by intro h hh; norm_num at hh; norm_num [hh]⟩,
   claim6_amended_greedy_balance [100] 516 16 250 100 (by norm_num) (by norm_num)
     (by intro h hh; norm_num at hh; norm_num [hh])⟩

/-- C3: divergence on the applied container height. For one item of height
100 in one column with gutter 16 the accumulator is 116; the main
variant's `calculateLayout` applies `Math.max(...columnHeights) = 116`
without subtracting a trailing gutter, while the claimed (and
spec-intended) behaviour — implemented by the pooled variant's
`setContainerHeight` — applies `116 - 16 = 100`. -/
theorem claim3_trailing_gutter_divergence :
    (calculateLayout [100] 250 16 250).containerHeight = 116 ∧
    mathMax (calculateLayout [100] 250 16 250).columnHeights = 116 ∧
    setContainerHeight (calculateLayout [100] 250 16 250).columnHeights 16 = 100 ∧
    (calculateLayout [100] 250 16 250).containerHeight ≠
      mathMax (calculateLayout [100] 250 16 250).columnHeights - 16 := by
  rw [calcLayout250]
  refine ⟨rfl, rfl, ?_, ?_⟩
  · norm_num [setContainerHeight, mathMax]
  · norm_num [mathMax]

/-! ### Construction, determinism, post-destroy behaviour, addItems -/

/-- C4: with an absent container, construction fails immediately in both
variants and no instance is produced. The pooled variant raises the
explicit invalid-argument error `'Container element is required'`; the
main variant has no explicit check and fails on the first container
dereference (`this.container.classList.add`), likewise before any
observable construction step. -/
theorem claim4_missing_container :
    (∀ items : List ℕ,
      p2Construct none items = Except.error "Container element is required" ∧
      (p2Construct none items).isOk = false) ∧
    (∀ (opts : MainOptions) (W : ℚ) (rng : ℕ → ℚ),
      construct none opts W rng =
        Except.error "TypeError: cannot read properties of null" ∧
      (construct none opts W rng).isOk = false) :=
  ⟨fun _ => ⟨rfl, rfl⟩, fun _ _ _ => ⟨rfl, rfl⟩⟩

/-- C9: placement is deterministic. The layout pass is independent of the
ambient randomness stream (its body never reads `Math.random`), and
re-running `calculateLayout()` on an instance with unchanged items, width
and options reproduces exactly the same positions, column heights and
applied container height. -/
theorem claim9_layout_deterministic :
    (∀ (r1 r2 : ℕ → ℚ) (itemHeights : List ℚ) (W g m : ℚ),
      calculateLayoutInEnv r1 itemHeights W g m =
        calculateLayoutInEnv r2 itemHeights W g m) ∧
    (∀ s : MainState,
      (calculateLayoutStep (calculateLayoutStep s)).positions =
        (calculateLayoutStep s).positions ∧
      (calculateLayoutStep (calculateLayoutStep s)).columnHeights =
        (calculateLayoutStep s).columnHeights ∧
      (calculateLayoutStep (calculateLayoutStep s)).containerStyleHeight =
        (calculateLayoutStep s).containerStyleHeight) :=
  ⟨fun _ _ _ _ _ _ => rfl, fun _ => ⟨rfl, rfl, rfl⟩⟩

/-- C5: divergence after destroy in the main variant. Calling
`addItems(1)` on a destroyed instance is not a no-op: `generateItems`
appends a fresh element to the cleared container and `calculateLayout`
re-applies a height style, so the container is mutated again after
teardown. The pooled variant does satisfy the claim: its `isDestroyed`
guard makes `updateItems` after `destroy` a no-op and `destroy` is
idempotent. -/
theorem claim5_post_destroy_divergence :
    (addItems (destroy sampleState3) 1 rng0).containerChildren ≠ [] ∧
    (addItems (destroy sampleState3) 1 rng0).items.length = 1 ∧
    (addItems (destroy sampleState3) 1 rng0).containerStyleHeight ≠ none ∧
    (∀ (t : P2State) (xs : List ℕ), p2UpdateItems (p2Destroy t) xs = p2Destroy t) ∧
    (∀ t : P2State, p2Destroy (p2Destroy t) = p2Destroy t) := by
  refine ⟨?_, ?_, ?_, ?_, ?_⟩
  · simp [addItems, applyLayoutStep, calculateLayoutStep, generateItems, destroy,
      sampleState3, rng0, createItem]
  · simp [addItems, applyLayoutStep, calculateLayoutStep, generateItems, destroy,
      sampleState3, rng0, createItem]
  · simp [addItems, applyLayoutStep, calculateLayoutStep, generateItems, destroy,
      sampleState3, rng0, createItem]
  · intro t xs
    by_cases h : t.isDestroyed <;> simp [p2Destroy, p2UpdateItems, h]
  · intro t
    by_cases h : t.isDestroyed <;> simp [p2Destroy, h]

lemma jsClampIndex_of_nonneg (t : ℤ) (n : ℕ) (h0 : 0 ≤ t) (hn : t ≤ (n : ℤ)) :
    jsClampIndex t n = t.toNat := by
  rw [jsClampIndex, if_neg (by omega)]
  exact Nat.min_eq_left (by omega)

/-- C10, counterexample to the claim as stated: on a 3-item instance,
`addItems(-5)` has target length `3 + (-5) = -2`; JS negative slice
indices then keep `items.slice(0, -2)`, i.e. one item — the registry is
not truncated to the target length (nor to zero). -/
theorem claim10_counterexample :
    (addItems sampleState3 (-5) rng0).items.length = 1 ∧
    (sampleState3.items.length : ℤ) + (-5) = -2 ∧
    ((addItems sampleState3 (-5) rng0).items.length : ℤ) ≠
      (sampleState3.items.length : ℤ) + (-5) ∧
    (addItems sampleState3 (-5) rng0).items.length ≠ 0 := by
  have h1 : (addItems sampleState3 (-5) rng0).items.length = 1 := by
    simp [addItems, applyLayoutStep, calculateLayoutStep, generateItems,
      sampleState3, jsSliceTake, jsClampIndex]
  refine ⟨h1, by norm_num [sampleState3], ?_, ?_⟩
  · rw [h1]
    norm_num [sampleState3]
  · rw [h1]
    norm_num

lemma generateItems_shrink (s : MainState) (t : ℤ) (rng : ℕ → ℚ)
    (hbranch : t < (s.items.length : ℤ)) (K : ℕ)
    (hclamp : jsClampIndex t s.items.length = K) :
    (generateItems s t rng).items = s.items.take K ∧
    (generateItems s t rng).containerChildren =
      s.containerChildren.filter (fun it => decide (it ∉ s.items.drop K)) := by
  have hgen : generateItems s t rng =
      { s with items := jsSliceTake s.items t,
               containerChildren := s.containerChildren.filter
                 (fun it => decide (it ∉ jsSliceDrop s.items t)) } := by
    rw [generateItems, if_pos hbranch]
  constructor
  · rw [hgen]
    show jsSliceTake s.items t = _
    rw [jsSliceTake, hclamp]
  · rw [hgen]
    show s.containerChildren.filter _ = _
    rw [jsSliceDrop, hclamp]

/-- C10, amended: `addItems(count)` with negative `count` shrinks the
registry instead of growing it or rejecting the argument. When the target
length `items.length + count` is still nonnegative, the registry is
truncated to the target length and exactly the trailing excess elements
are removed from the container. When `count` drops below `-items.length`,
the negative target falls into JS negative-index slice semantics instead:
the first `max(0, 2*items.length + count)` items are kept (here `Int.toNat`
is that clamp at 0), so the registry is not truncated to the target
length, as the counterexample also shows. -/
theorem claim10_amended_shrink (s : MainState) (count : ℤ) (rng : ℕ → ℚ)
    (h1 : count < 0) :
    (-(s.items.length : ℤ) ≤ count →
      (addItems s count rng).items =
        s.items.take ((s.items.length : ℤ) + count).toNat ∧
      (addItems s count rng).containerChildren =
        s.containerChildren.filter
          (fun it => decide (it ∉ s.items.drop ((s.items.length : ℤ) + count).toNat))) ∧
    (count < -(s.items.length : ℤ) →
      (addItems s count rng).items =
        s.items.take (2 * (s.items.length : ℤ) + count).toNat ∧
      (addItems s count rng).containerChildren =
        s.containerChildren.filter
          (fun it => decide (it ∉ s.items.drop (2 * (s.items.length : ℤ) + count).toNat))) := by
  constructor
  · intro h2
    have hclamp : jsClampIndex ((s.items.length : ℤ) + count) s.items.length =
        ((s.items.length : ℤ) + count).toNat :=
      jsClampIndex_of_nonneg _ _ (by omega) (by omega)
    have hsh := generateItems_shrink s ((s.items.length : ℤ) + count) rng
      (by omega) _ hclamp
    constructor
    · show (generateItems s ((s.items.length : ℤ) + count) rng).items = _
      exact hsh.1
    · show (generateItems s ((s.items.length : ℤ) + count) rng).containerChildren = _
      exact hsh.2
  · intro h2
    have hclamp : jsClampIndex ((s.items.length : ℤ) + count) s.items.length =
        (2 * (s.items.length : ℤ) + count).toNat := by
      rw [jsClampIndex, if_pos (by omega : (s.items.length : ℤ) + count < 0)]
      congr 1
      omega
    have hsh := generateItems_shrink s ((s.items.length : ℤ) + count) rng
      (by omega) _ hclamp
    constructor
    · show (generateItems s ((s.items.length : ℤ) + count) rng).items = _
      exact hsh.1
    · show (generateItems s ((s.items.length : ℤ) + count) rng).containerChildren = _
      exact hsh.2

/-- Witness for the amended C10 at both branches: `addItems(-2)` on the
3-item sample instance (in-range target, truncation to one item) and
`addItems(-5)` on the same instance (target -2, negative-index slice
keeps the first `(2*3 + (-5)).toNat = 1` items). -/
theorem claim10_witness :
    ((-2 : ℤ) < 0 ∧
     ((-(sampleState3.items.length : ℤ) ≤ -2 →
        (addItems sampleState3 (-2) rng0).items =
          sampleState3.items.take ((sampleState3.items.length : ℤ) + (-2)).toNat ∧
        (addItems sampleState3 (-2) rng0).containerChildren =
          sampleState3.containerChildren.filter
            (fun it => decide (it ∉ sampleState3.items.drop
              ((sampleState3.items.length : ℤ) + (-2)).toNat))) ∧
      ((-2 : ℤ) < -(sampleState3.items.length : ℤ) →
        (addItems sampleState3 (-2) rng0).items =
          sampleState3.items.take (2 * (sampleState3.items.length : ℤ) + (-2)).toNat ∧
        (addItems sampleState3 (-2) rng0).containerChildren =
          sampleState3.containerChildren.filter
            (fun it => decide (it ∉ sampleState3.items.drop
              (2 * (sampleState3.items.length : ℤ) + (-2)).toNat))))) ∧
    ((-5 : ℤ) < 0 ∧
     ((-(sampleState3.items.length : ℤ) ≤ -5 →
        (addItems sampleState3 (-5) rng0).items =
          sampleState3.items.take ((sampleState3.items.length : ℤ) + (-5)).toNat ∧
        (addItems sampleState3 (-5) rng0).containerChildren =
          sampleState3.containerChildren.filter
            (fun it => decide (it ∉ sampleState3.items.drop
              ((sampleState3.items.length : ℤ) + (-5)).toNat))) ∧
      ((-5 : ℤ) < -(sampleState3.items.length : ℤ) →
        (addItems sampleState3 (-5) rng0).items =
          sampleState3.items.take (2 * (sampleState3.items.length : ℤ) + (-5)).toNat ∧
        (addItems sampleState3 (-5) rng0).containerChildren =
          sampleState3.containerChildren.filter
            (fun it => decide (it ∉ sampleState3.items.drop
              (2 * (sampleState3.items.length : ℤ) + (-5)).toNat))))) :=
  ⟨⟨by norm_num, claim10_amended_shrink sampleState3 (-2) rng0 (by norm_num)⟩,
   ⟨by norm_num, claim10_amended_shrink sampleState3 (-5) rng0 (by norm_num)⟩⟩

/-! ### Resize coordinator: coalescing and cancellation on destroy -/

lemma runR_nil (s : RState) : runR s [] = s := rfl

lemma runR_cons (s : RState) (e : REvent) (evs : List REvent) :
    runR s (e :: evs) = runR (stepR s e) evs := rfl

lemma cancelRaf_resizeRaf (s : RState) : (cancelRaf s).resizeRaf = s.resizeRaf := by
  rcases h : s.resizeRaf with _ | id
  · simp [cancelRaf, h]
  · simp only [cancelRaf, h]
    split_ifs <;> simp [h]

lemma cancelRaf_nextId (s : RState) : (cancelRaf s).nextId = s.nextId := by
  rcases h : s.resizeRaf with _ | id
  · simp [cancelRaf, h]
  · simp only [cancelRaf, h]
    split_ifs <;> simp

lemma cancelRaf_scheduled (s : RState) : (cancelRaf s).scheduled = s.scheduled := by
  rcases h : s.resizeRaf with _ | id
  · simp [cancelRaf, h]
  · simp only [cancelRaf, h]
    split_ifs <;> simp

lemma cancelRaf_fired (s : RState) : (cancelRaf s).fired = s.fired := by
  rcases h : s.resizeRaf with _ | id
  · simp [cancelRaf, h]
  · simp only [cancelRaf, h]
    split_ifs <;> simp

lemma cancelRaf_observing (s : RState) : (cancelRaf s).observing = s.observing := by
  rcases h : s.resizeRaf with _ | id
  · simp [cancelRaf, h]
  · simp only [cancelRaf, h]
    split_ifs <;> simp

lemma cancelRaf_cancelled_mono (s : RState) (x : ℕ) (hx : x ∈ s.cancelled) :
    x ∈ (cancelRaf s).cancelled := by
  rcases h : s.resizeRaf with _ | id
  · simpa [cancelRaf, h] using hx
  · simp only [cancelRaf, h]
    split_ifs <;> simp [hx]

lemma cancelRaf_cancels (s : RState) (id : ℕ) (hid : s.resizeRaf = some id)
    (hpos : 0 < id) : id ∈ (cancelRaf s).cancelled := by
  simp only [cancelRaf, hid]
  rw [if_neg (by omega)]
  exact List.mem_cons_self id s.cancelled

/-- Scheduler invariant: ids are positive and below the id counter, the
pending request is scheduled, and every scheduled request is cancelled,
fired, or still pending. -/
def InvR (s : RState) : Prop :=
  0 < s.nextId ∧
  (∀ id, s.resizeRaf = some id → 0 < id ∧ id < s.nextId ∧ id ∈ s.scheduled) ∧
  (∀ id ∈ s.scheduled, id < s.nextId) ∧
  (∀ id ∈ s.fired, id < s.nextId) ∧
  (∀ id ∈ s.scheduled, id ∈ s.cancelled ∨ id ∈ s.fired ∨ s.resizeRaf = some id)

lemma invR_init : InvR initR := by
  refine ⟨by norm_num [initR], ?_, ?_, ?_, ?_⟩ <;> simp [initR]

lemma invR_handleResize (s : RState) (h : InvR s) : InvR (handleResize s) := by
  obtain ⟨h1, h2, h3, h4, h5⟩ := h
  rw [handleResize]
  refine ⟨?_, ?_, ?_, ?_, ?_⟩
  · simp [cancelRaf_nextId]
  · intro id hid
    simp only at hid
    rw [Option.some_inj] at hid
    subst hid
    simp [cancelRaf_nextId]
    omega
  · intro id hid
    simp only [cancelRaf_scheduled, cancelRaf_nextId] at hid ⊢
    rcases List.mem_cons.mp hid with h' | h'
    · omega
    · have := h3 id h'
      omega
  · intro id hid
    simp only [cancelRaf_fired, cancelRaf_nextId] at hid ⊢
    have := h4 id hid
    omega
  · intro id hid
    simp only [cancelRaf_scheduled, cancelRaf_nextId, cancelRaf_fired] at hid ⊢
    rcases List.mem_cons.mp hid with h' | h'
    · right; right
      rw [h']
    · rcases h5 id h' with hc | hf | hp
      · exact Or.inl (cancelRaf_cancelled_mono s id hc)
      · right; left
        exact hf
      · obtain ⟨hpos, _, _⟩ := h2 id hp
        exact Or.inl (cancelRaf_cancels s id hp hpos)

lemma invR_frameFire (s : RState) (h : InvR s) : InvR (frameFire s) := by
  obtain ⟨h1, h2, h3, h4, h5⟩ := h
  rcases hr : s.resizeRaf with _ | id
  · simpa [frameFire, hr] using ⟨h1, h2, h3, h4, h5⟩
  · simp only [frameFire, hr]
    split_ifs with hif
    · exact ⟨h1, h2, h3, h4, h5⟩
    · obtain ⟨hpos, hlt, hsch⟩ := h2 id hr
      refine ⟨h1, ?_, h3, ?_, ?_⟩
      · intro id' hid'
        simp only at hid'
        exact h2 id' (hr.trans hid')
      · intro id' hid'
        show id' < s.nextId
        simp only [List.mem_cons] at hid'
        rcases hid' with h' | h'
        · omega
        · exact h4 id' h'
      · intro id' hid'
        show id' ∈ s.cancelled ∨ id' ∈ id :: s.fired ∨ some id = some id'
        rcases h5 id' hid' with hc | hf | hp
        · exact Or.inl hc
        · exact Or.inr (Or.inl (List.mem_cons_of_mem _ hf))
        · rw [hr] at hp
          rw [Option.some_inj] at hp
          subst hp
          exact Or.inr (Or.inl (List.mem_cons_self _ _))

lemma invR_destroySched (s : RState) (h : InvR s) : InvR (destroySched s) := by
  obtain ⟨h1, h2, h3, h4, h5⟩ := h
  rw [destroySched]
  refine ⟨?_, ?_, ?_, ?_, ?_⟩
  · simpa [cancelRaf_nextId] using h1
  · intro id hid
    simp at hid
  · intro id hid
    simp only [cancelRaf_scheduled, cancelRaf_nextId] at hid ⊢
    exact h3 id hid
  · intro id hid
    simp only [cancelRaf_fired, cancelRaf_nextId] at hid ⊢
    exact h4 id hid
  · intro id hid
    simp only [cancelRaf_scheduled, cancelRaf_fired] at hid ⊢
    rcases h5 id hid with hc | hf | hp
    · exact Or.inl (cancelRaf_cancelled_mono _ id hc)
    · exact Or.inr (Or.inl hf)
    · obtain ⟨hpos, _, _⟩ := h2 id hp
      exact Or.inl (cancelRaf_cancels _ id hp hpos)

lemma invR_stepR (s : RState) (e : REvent) (h : InvR s) : InvR (stepR s e) := by
  cases e with
  | resize =>
    rw [stepR]
    split_ifs with hobs
    · exact invR_handleResize s h
    · exact h
  | frame => exact invR_frameFire s h
  | destroy => exact invR_destroySched s h

lemma invR_runR (evs : List REvent) : ∀ s : RState, InvR s → InvR (runR s evs) := by
  induction evs with
  | nil => intro s h; exact h
  | cons e evs ih =>
    intro s h
    rw [runR_cons]
    exact ih (stepR s e) (invR_stepR s e h)

lemma handleResize_fields (s : RState) :
    (handleResize s).resizeRaf = some s.nextId ∧
    (handleResize s).nextId = s.nextId + 1 ∧
    (handleResize s).fired = s.fired ∧
    (handleResize s).observing = s.observing ∧
    (handleResize s).scheduled = s.nextId :: s.scheduled := by
  rw [handleResize]
  exact ⟨by simp [cancelRaf_nextId], by simp [cancelRaf_nextId], by simp [cancelRaf_fired],
    by simp [cancelRaf_observing], by simp [cancelRaf_nextId, cancelRaf_scheduled]⟩

lemma handleResize_cancelled_mono (s : RState) (x : ℕ) (hx : x ∈ s.cancelled) :
    x ∈ (handleResize s).cancelled := by
  rw [handleResize]
  show x ∈ (cancelRaf s).cancelled
  exact cancelRaf_cancelled_mono s x hx

lemma frameFire_cancelled (s : RState) : (frameFire s).cancelled = s.cancelled := by
  rcases hr : s.resizeRaf with _ | id
  · simp [frameFire, hr]
  · simp only [frameFire, hr]
    split_ifs <;> simp

lemma frameFire_fired_cases (s : RState) (x : ℕ) (hx : x ∈ (frameFire s).fired) :
    x ∈ s.fired ∨ (s.resizeRaf = some x ∧ x ∉ s.cancelled) := by
  rcases hr : s.resizeRaf with _ | id
  · simp only [frameFire, hr] at hx
    exact Or.inl hx
  · simp only [frameFire, hr] at hx
    split_ifs at hx with hif
    · exact Or.inl hx
    · push_neg at hif
      rcases List.mem_cons.mp hx with h' | h'
      · subst h'
        exact Or.inr ⟨rfl, hif.1⟩
      · exact Or.inl h'

lemma stepR_cancelled_mono (s : RState) (e : REvent) (x : ℕ) (hx : x ∈ s.cancelled) :
    x ∈ (stepR s e).cancelled := by
  cases e with
  | resize =>
    rw [stepR]
    split_ifs
    · exact handleResize_cancelled_mono s x hx
    · exact hx
  | frame =>
    rw [stepR, frameFire_cancelled]
    exact hx
  | destroy =>
    rw [stepR, destroySched]
    show x ∈ (cancelRaf { s with observing := false }).cancelled
    exact cancelRaf_cancelled_mono _ x hx

lemma stepR_not_fired (s : RState) (e : REvent) (x : ℕ)
    (hc : x ∈ s.cancelled) (hf : x ∉ s.fired) : x ∉ (stepR s e).fired := by
  cases e with
  | resize =>
    rw [stepR]
    split_ifs
    · rw [(handleResize_fields s).2.2.1]
      exact hf
    · exact hf
  | frame =>
    intro hmem
    rcases frameFire_fired_cases s x hmem with h' | h'
    · exact hf h'
    · exact h'.2 hc
  | destroy =>
    rw [stepR, destroySched]
    show x ∉ (cancelRaf { s with observing := false }).fired
    rw [cancelRaf_fired]
    exact hf

lemma runR_cancelled_mono (evs : List REvent) :
    ∀ (s : RState) (x : ℕ), x ∈ s.cancelled → x ∈ (runR s evs).cancelled := by
  induction evs with
  | nil => intro s x hx; exact hx
  | cons e evs ih =>
    intro s x hx
    rw [runR_cons]
    exact ih (stepR s e) x (stepR_cancelled_mono s e x hx)

lemma runR_not_fired (evs : List REvent) :
    ∀ (s : RState) (x : ℕ), x ∈ s.cancelled → x ∉ s.fired → x ∉ (runR s evs).fired := by
  induction evs with
  | nil => intro s x _ hf; exact hf
  | cons e evs ih =>
    intro s x hc hf
    rw [runR_cons]
    exact ih (stepR s e) x (stepR_cancelled_mono s e x hc) (stepR_not_fired s e x hc hf)

lemma runR_burst (k : ℕ) :
    ∀ s : RState, s.observing = true → 0 < s.nextId →
    (runR s (List.replicate (k + 1) REvent.resize)).resizeRaf = some (s.nextId + k) ∧
    (runR s (List.replicate (k + 1) REvent.resize)).nextId = s.nextId + k + 1 ∧
    (runR s (List.replicate (k + 1) REvent.resize)).fired = s.fired ∧
    (runR s (List.replicate (k + 1) REvent.resize)).observing = true ∧
    (∀ x ∈ s.cancelled, x ∈ (runR s (List.replicate (k + 1) REvent.resize)).cancelled) ∧
    (∀ p, s.resizeRaf = some p → 0 < p →
      p ∈ (runR s (List.replicate (k + 1) REvent.resize)).cancelled) ∧
    (∀ i, i < k → s.nextId + i ∈ (runR s (List.replicate (k + 1) REvent.resize)).cancelled) := by
  induction k with
  | zero =>
    intro s hobs hpos
    rw [show List.replicate 1 REvent.resize = [REvent.resize] from rfl, runR_cons, runR_nil]
    have hstep : stepR s REvent.resize = handleResize s := by simp [stepR, hobs]
    rw [hstep]
    obtain ⟨f1, f2, f3, f4, f5⟩ := handleResize_fields s
    refine ⟨by simp [f1], by simp [f2], f3, by rw [f4]; exact hobs, ?_, ?_, ?_⟩
    · exact fun x hx => handleResize_cancelled_mono s x hx
    · intro p hp hppos
      rw [handleResize]
      show p ∈ (cancelRaf s).cancelled
      exact cancelRaf_cancels s p hp hppos
    · intro i hi
      omega
  | succ k ih =>
    intro s hobs hpos
    rw [List.replicate_succ, runR_cons]
    have hstep : stepR s REvent.resize = handleResize s := by simp [stepR, hobs]
    rw [hstep]
    obtain ⟨f1, f2, f3, f4, f5⟩ := handleResize_fields s
    have hobs' : (handleResize s).observing = true := by rw [f4]; exact hobs
    have hpos' : 0 < (handleResize s).nextId := by rw [f2]; omega
    obtain ⟨g1, g2, g3, g4, g5, g6, g7⟩ := ih (handleResize s) hobs' hpos'
    refine ⟨?_, ?_, ?_, g4, ?_, ?_, ?_⟩
    · rw [g1, f2]
      congr 1
      omega
    · rw [g2, f2]
      omega
    · rw [g3, f3]
    · exact fun x hx => g5 x (handleResize_cancelled_mono s x hx)
    · intro p hp hppos
      apply g5 p
      rw [handleResize]
      show p ∈ (cancelRaf s).cancelled
      exact cancelRaf_cancels s p hp hppos
    · intro i hi
      cases i with
      | zero =>
        have := g6 s.nextId f1 hpos
        simpa using this
      | succ i' =>
        have := g7 i' (by omega)
        rw [f2] at this
        have heq : s.nextId + 1 + i' = s.nextId + (i' + 1) := by omega
        rwa [heq] at this

lemma cancelRaf_of_none (s : RState) (h : s.resizeRaf = none) : cancelRaf s = s := by
  simp [cancelRaf, h]

lemma destroySched_observing (s : RState) : (destroySched s).observing = false := by
  rw [destroySched]
  show (cancelRaf { s with observing := false }).observing = false
  rw [cancelRaf_observing]

lemma destroySched_id (s : RState) (h1 : s.observing = false)
    (h2 : s.resizeRaf = none) (h3 : s.destroyed = true) : destroySched s = s := by
  have hupd : ({ s with observing := false } : RState) = s := by
    cases s
    simp_all
  rw [destroySched, hupd, cancelRaf_of_none s h2]
  cases s
  simp_all

lemma stepR_destroySched_fix (s : RState) (e : REvent) :
    stepR (destroySched s) e = destroySched s := by
  cases e with
  | resize =>
    rw [stepR]
    simp [destroySched_observing]
  | frame =>
    rw [stepR]
    have hr : (destroySched s).resizeRaf = none := rfl
    simp [frameFire, hr]
  | destroy =>
    rw [stepR]
    exact destroySched_id (destroySched s) (destroySched_observing s) rfl rfl

lemma runR_destroy_fix (evs : List REvent) (s : RState) :
    runR (destroySched s) evs = destroySched s := by
  induction evs with
  | nil => rfl
  | cons e evs ih =>
    rw [runR_cons, stepR_destroySched_fix]
    exact ih

lemma destroySched_settled (s : RState) (hInv : InvR s) :
    ∀ id ∈ (destroySched s).scheduled,
      id ∈ (destroySched s).cancelled ∨ id ∈ (destroySched s).fired := by
  obtain ⟨h1, h2, h3, h4, h5⟩ := hInv
  intro id hid
  have hsch : (destroySched s).scheduled = s.scheduled := by
    rw [destroySched]
    show (cancelRaf { s with observing := false }).scheduled = s.scheduled
    rw [cancelRaf_scheduled]
  have hfr : (destroySched s).fired = s.fired := by
    rw [destroySched]
    show (cancelRaf { s with observing := false }).fired = s.fired
    rw [cancelRaf_fired]
  rw [hsch] at hid
  rw [hfr]
  rcases h5 id hid with hc | hf | hp
  · left
    rw [destroySched]
    show id ∈ (cancelRaf { s with observing := false }).cancelled
    exact cancelRaf_cancelled_mono _ id hc
  · exact Or.inr hf
  · left
    rw [destroySched]
    show id ∈ (cancelRaf { s with observing := false }).cancelled
    exact cancelRaf_cancels _ id hp (h2 id hp).1

/-- C7: starting from any reachable scheduler state with the subscriptions
attached, a burst of `k ≥ 1` resize notifications before the scheduled
relayout runs leaves exactly one pending animation-frame request — the
latest — while every earlier request of the burst is cancelled and its
relayout callback can never run no matter what happens later (only the
latest one runs); no callback fires during the burst itself. Moreover
`destroy()` cancels the pending request: after it the scheduler is inert
(every later event, including frame boundaries, leaves it unchanged),
nothing is pending, and every request ever scheduled has been cancelled
or had already fired — so no relayout callback ever fires after
destruction. -/
theorem claim7_resize_coalescing (evs evs2 : List REvent) (k : ℕ) (hk : 1 ≤ k)
    (hobs : (runR initR evs).observing = true) :
    let s := runR initR evs
    let s2 := runR s (List.replicate k REvent.resize)
    let d := runR s [REvent.destroy]
    (s2.resizeRaf = some (s.nextId + (k - 1)) ∧
     s2.fired = s.fired ∧
     (∀ i, i < k - 1 → s.nextId + i ∈ s2.cancelled ∧
        s.nextId + i ∉ (runR s2 evs2).fired)) ∧
    (runR d evs2 = d ∧ d.resizeRaf = none ∧
     ∀ id ∈ d.scheduled, id ∈ d.cancelled ∨ id ∈ d.fired) := by
  intro s s2 d
  have hInv : InvR s := invR_runR evs initR invR_init
  have hn : 0 < s.nextId := hInv.1
  have hfired : ∀ id ∈ s.fired, id < s.nextId := hInv.2.2.2.1
  obtain ⟨k', rfl⟩ : ∃ k', k = k' + 1 := ⟨k - 1, by omega⟩
  obtain ⟨g1, g2, g3, g4, g5, g6, g7⟩ := runR_burst k' s hobs hn
  constructor
  · refine ⟨by simpa using g1, g3, ?_⟩
    intro i hi
    have hc : s.nextId + i ∈ s2.cancelled := g7 i (by omega)
    refine ⟨hc, ?_⟩
    apply runR_not_fired evs2 s2 _ hc
    rw [g3]
    intro hmem
    have := hfired _ hmem
    omega
  · refine ⟨?_, rfl, ?_⟩
    · show runR (destroySched s) evs2 = destroySched s
      exact runR_destroy_fix evs2 s
    · show ∀ id ∈ (destroySched s).scheduled,
        id ∈ (destroySched s).cancelled ∨ id ∈ (destroySched s).fired
      exact destroySched_settled s hInv

/-- Witness for C7: three rapid resize notifications on a fresh instance
coalesce into the single pending request with id 3, requests 1 and 2 are
cancelled, and destroying the fresh instance leaves an inert scheduler. -/
theorem claim7_witness :
    ((1 : ℕ) ≤ 3 ∧ (runR initR []).observing = true) ∧
    (let s := runR initR []
     let s2 := runR s (List.replicate 3 REvent.resize)
     let d := runR s [REvent.destroy]
     (s2.resizeRaf = some (s.nextId + (3 - 1)) ∧
      s2.fired = s.fired ∧
      (∀ i, i < 3 - 1 → s.nextId + i ∈ s2.cancelled ∧
         s.nextId + i ∉ (runR s2 []).fired)) ∧
     (runR d [] = d ∧ d.resizeRaf = none ∧
      ∀ id ∈ d.scheduled, id ∈ d.cancelled ∨ id ∈ d.fired)) :=
  ⟨⟨by norm_num, rfl⟩, claim7_resize_coalescing [] [] 3 (by norm_num) rfl⟩
